import Mathlib

/- A shallow embedding of the boxer periodic scheduler: the `Command` and
`Ticker` data model and the `Ticker.Tick` polling operation, translated
from the Go source.  Instants and durations are integers (nanoseconds
since Go's zero `time.Time`, which is 0 here); the scenarios below involve
no `int64` overflow, so unbounded `Int` stands for `int64`.  All times are
taken in a single location, matching the package's use of a single clock. -/

namespace Boxer

/-- Go `time.Time.Truncate d`: for `d ≤ 0` the receiver is returned
unchanged; otherwise the time is rounded down to a multiple of `d` counted
from the zero time.  `Int` division `/` rounds toward negative infinity
for a positive divisor, which is Go's rounding down. -/
def bucket (t d : Int) : Int := if d ≤ 0 then t else d * (t / d)

/-- Go division of `time.Duration` values (`int64` division) truncates
toward zero, which is `Int.tdiv`. -/
def goDiv (a b : Int) : Int := a.tdiv b

/-- the `Handler` function type: it receives `(stepIndex, stepCount)` and
returns `none` for success or `some msg` for a non-nil Go `error`. -/
def HandlerFn : Type := Int → Int → Option String

/-- `Command` from the source: a name, the step and interval durations,
and the handler; `none` embeds a nil Go function value. -/
structure Command where
  Name : String
  Step : Int
  Interval : Int
  Handler : Option HandlerFn

/-- `Ticker` from the source: the last tick time `prev` and the list of
commands.  The logger is modelled separately by `tickLog`, and the
injectable `Now` function by `ClockState`. -/
structure Ticker where
  prev : Int
  Commands : List Command

/-- `NewTicker`: `prev` is the zero-value sentinel time (0) and the
command list is empty; no validation of any kind is performed. -/
def NewTicker : Ticker := { prev := 0, Commands := [] }

/-- building a ticker the way every caller in the repository does:
`NewTicker()` followed by appending a command list.  There is no error
path: the result is always a `Ticker`. -/
def mkTicker (cmds : List Command) : Ticker :=
  { NewTicker with Commands := cmds }

/-- the normalization at the top of the loop body:
`step, interval := cmd.Step, cmd.Interval; if step == 0 { step = cmd.Interval }`. -/
def effStep (c : Command) : Int := if c.Step = 0 then c.Interval else c.Step

/-- one observed handler invocation: the command's name, the two arguments
passed, and the handler's result (`none` = success). -/
structure Invocation where
  name : String
  idx : Int
  cnt : Int
  res : Option String
deriving DecidableEq

/-- the `i`, `n` computation of `Tick`: `if step == 0 { i, n = 0, 1 }` else
`i = int(now.Truncate(step).Sub(now.Truncate(interval)) / step)` and
`n = int(interval / step)`. -/
def stepArgs (now step interval : Int) : Int × Int :=
  if step = 0 then (0, 1)
  else (goDiv (bucket now step - bucket now interval) step, goDiv interval step)

/-- the loop body of `Tick` for one command: fire iff the truncation
buckets of `prev` and `now` under the normalized step differ and the
handler is non-nil; `none` means the command does not fire on this poll. -/
def tickCmd (prev now : Int) (c : Command) : Option Invocation :=
  let step := effStep c
  if bucket prev step ≠ bucket now step then
    match c.Handler with
    | some h =>
      let a := stepArgs now step c.Interval
      some { name := c.Name, idx := a.1, cnt := a.2, res := h a.1 a.2 }
    | none => none
  else
    none

/-- `Tick` given the value `now` already read from the clock: every
command is evaluated against the original `prev`, the invocations are
collected in registration order, and afterwards `prev` is set to `now`. -/
def Ticker.tickAt (t : Ticker) (now : Int) : Ticker × List Invocation :=
  ({ t with prev := now }, t.Commands.filterMap (tickCmd t.prev now))

/-- the lines `t.Logger.Printf("%s: %s", cmd.Name, err.Error())` produced
by a poll whose invocations are `invs`. -/
def tickLog (invs : List Invocation) : List String :=
  invs.filterMap fun v => v.res.map fun e => v.name ++ ": " ++ e

/-- the injectable time source (`NowFunc` / the `Now` field): a stream of
values together with a cursor counting how many reads have happened. -/
structure ClockState where
  vals : Nat → Int
  pos : Nat

/-- one clock read: return the current value and advance the cursor. -/
def ClockState.readNow (c : ClockState) : Int × ClockState :=
  (c.vals c.pos, { c with pos := c.pos + 1 })

/-- `Tick` itself: `now := t.Now()` is a single clock read, then the
commands are evaluated and `prev` is updated. -/
def Ticker.Tick (t : Ticker) (c : ClockState) : Ticker × ClockState × List Invocation :=
  let r := c.readNow
  let s := t.tickAt r.1
  (s.1, r.2, s.2)

/-- Go integer division, with the divisor-zero panic made explicit as
`none`. -/
def checkedDiv (a b : Int) : Option Int :=
  if b = 0 then none else some (goDiv a b)

/-- `stepArgs` with each Go division checked for a zero divisor, so that
totality of the `i`, `n` computation is a provable statement. -/
def stepArgsChecked (now step interval : Int) : Option (Int × Int) :=
  if step = 0 then some (0, 1)
  else
    match checkedDiv (bucket now step - bucket now interval) step,
        checkedDiv interval step with
    | some i, some n => some (i, n)
    | _, _ => none

/-- driving a ticker through a list of clock readings, one `Tick` per
element, collecting every invocation in order. -/
def runSim (t : Ticker) (times : List Int) : List Invocation :=
  match times with
  | [] => []
  | now :: rest => (t.tickAt now).2 ++ runSim (t.tickAt now).1 rest

/-- a handler that always succeeds. -/
def hNop : HandlerFn := fun _ _ => none

/-- a handler that always fails with the message "boom". -/
def hFail : HandlerFn := fun _ _ => some "boom"

/-- the invocation as seen by the scheduler itself: the fired command's
name and the two arguments, without the handler's result. -/
def dropResult (v : Invocation) : String × Int × Int := (v.name, v.idx, v.cnt)

/-- the command of the boundary-count test scenario read literally in one
time unit: step 1 unit, interval 15 units. -/
def c2LitCmd : Command := ⟨"cmd", 1, 15, some hNop⟩

/-- the poll times of the boundary-count scenario read literally in one
time unit: an initial poll at `T0 = 900`, then `T0 + 10·k` while
`10·k ≤ 360`. -/
def c2LitTimes : List Int := 900 :: (List.range 37).map (fun k => 900 + 10 * (k : Int))

/-- the command of the boundary-count test as the test actually builds it,
in seconds: step 1 minute (60), interval 15 minutes (900). -/
def c2Cmd : Command := ⟨"cmd", 60, 900, some hNop⟩

/-- the poll times of the test in seconds: an initial poll at an aligned
`T0 = 9000`, then `T0 + 10·k` for `0 ≤ k ≤ 360` (10 seconds per poll for
one hour). -/
def c2Times : List Int := 9000 :: (List.range 361).map (fun k => 9000 + 10 * (k : Int))

/- ------------------------------------------------------------------ -/
/- Helper lemmas shared by the claim theorems.                        -/
/- ------------------------------------------------------------------ -/

theorem tickCmd_isSome_iff (prev now : Int) (c : Command) :
    (tickCmd prev now c).isSome ↔
      (bucket prev (effStep c) ≠ bucket now (effStep c) ∧ c.Handler.isSome) := by
  rcases hH : c.Handler with _ | h <;>
    by_cases hb : bucket prev (effStep c) ≠ bucket now (effStep c) <;>
      simp [tickCmd, hH, hb]

theorem length_filterMap_all_isSome {α β : Type} (f : α → Option β) :
    ∀ l : List α, (∀ a ∈ l, (f a).isSome) → (l.filterMap f).length = l.length := by
  intro l
  induction l with
  | nil => intro _; rfl
  | cons a t ih =>
    intro h
    obtain ⟨b, hb⟩ := Option.isSome_iff_exists.mp (h a (List.mem_cons_self a t))
    have ht : ∀ x ∈ t, (f x).isSome := fun x hx => h x (List.mem_cons_of_mem a hx)
    simp [List.filterMap_cons, hb, ih ht]

theorem stepArgs_bounds (now s I : Int) (hs : 0 < s) (hI : 0 < I) (hd : s ∣ I) :
    0 ≤ (stepArgs now s I).1 ∧ (stepArgs now s I).1 < (stepArgs now s I).2 := by
  have hs0 : s ≠ 0 := ne_of_gt hs
  have hbs : bucket now s = now - now % s := by
    unfold bucket
    rw [if_neg (not_le.mpr hs)]
    have := Int.ediv_add_emod now s
    linarith
  have hbI : bucket now I = now - now % I := by
    unfold bucket
    rw [if_neg (not_le.mpr hI)]
    have := Int.ediv_add_emod now I
    linarith
  have hmod : now % s = now % I % s := (Int.emod_emod_of_dvd now hd).symm
  have hdiff : bucket now s - bucket now I = s * (now % I / s) := by
    rw [hbs, hbI, hmod]
    have := Int.ediv_add_emod (now % I) s
    linarith
  have hfst : (stepArgs now s I).1 = now % I / s := by
    simp only [stepArgs, goDiv, if_neg hs0, hdiff]
    exact Int.mul_tdiv_cancel_left _ hs0
  have hsnd : (stepArgs now s I).2 = I / s := by
    simp only [stepArgs, goDiv, if_neg hs0]
    exact Int.tdiv_eq_ediv (le_of_lt hI) (le_of_lt hs)
  constructor
  · rw [hfst]
    exact Int.ediv_nonneg (Int.emod_nonneg now (ne_of_gt hI)) (le_of_lt hs)
  · rw [hfst, hsnd, Int.ediv_lt_iff_lt_mul hs, Int.ediv_mul_cancel hd]
    exact Int.emod_lt_of_pos now hI

theorem tickCmd_map_dropResult (prev now : Int) (c : Command) :
    (tickCmd prev now c).map dropResult =
      (if bucket prev (effStep c) ≠ bucket now (effStep c) ∧ c.Handler.isSome then
        some (c.Name, (stepArgs now (effStep c) c.Interval).1,
          (stepArgs now (effStep c) c.Interval).2)
      else none) := by
  rcases hH : c.Handler with _ | h <;>
    by_cases hb : bucket prev (effStep c) ≠ bucket now (effStep c) <;>
      simp [tickCmd, dropResult, hH, hb]

/- ------------------------------------------------------------------ -/
/- The claim theorems.                                                -/
/- ------------------------------------------------------------------ -/

/-- C1: on every poll, a registered command with a non-nil handler is
invoked iff the truncation bucket of the previously observed time under
the normalized step differs from the bucket of `now`; the comparison is a
plain disequality, so a backward jump that changes the bucket also fires,
and a poll yields at most one invocation per command (the invocation list
is never longer than the command list). -/
theorem tick_fires_iff_bucket_changes (t : Ticker) (now : Int) (c : Command)
    (h : c.Handler.isSome) :
    ((tickCmd t.prev now c).isSome ↔
      bucket t.prev (effStep c) ≠ bucket now (effStep c)) ∧
    (t.tickAt now).2.length ≤ t.Commands.length := by
  constructor
  · rw [tickCmd_isSome_iff]
    simp [h]
  · exact List.length_filterMap_le _ _

/-- witness for C1 at a concrete fresh ticker and `now = 5`. -/
theorem tick_fires_iff_bucket_changes_witness :
    ((tickCmd (mkTicker [c2LitCmd]).prev 5 c2LitCmd).isSome ↔
      bucket (mkTicker [c2LitCmd]).prev (effStep c2LitCmd) ≠
        bucket 5 (effStep c2LitCmd)) ∧
    ((mkTicker [c2LitCmd]).tickAt 5).2.length ≤
      (mkTicker [c2LitCmd]).Commands.length :=
  tick_fires_iff_bucket_changes (mkTicker [c2LitCmd]) 5 c2LitCmd (by decide)

/-- C2 counterexample: read in a single time unit as stated (step 1 unit,
interval 15 units, an initial poll at `T0 = 900` and then polls every 10
units while the offset is at most 360 units), the handler fires 37 times,
not 61: every 10-unit poll crosses a 1-unit bucket, so only the initial
poll plus the 36 advancing polls fire. -/
theorem boundary_count_literal_refuted :
    (runSim (mkTicker [c2LitCmd]) c2LitTimes).length = 37 ∧
    (runSim (mkTicker [c2LitCmd]) c2LitTimes).length ≠ 61 := by
  constructor
  · decide
  · decide

/-- C2 amended: with the test's actual durations expressed in seconds
(step 60, interval 900, an initial poll at the aligned `T0 = 9000`, then
polls at `T0 + 10·k` for `0 ≤ k ≤ 360`, i.e. every 10 seconds for one
hour), the handler fires exactly 61 times, every invocation has
`stepCount = 15`, and exactly 5 invocations have `stepIndex = 0`. -/
theorem boundary_count_amended :
    (runSim (mkTicker [c2Cmd]) c2Times).length = 61 ∧
    (∀ v ∈ runSim (mkTicker [c2Cmd]) c2Times, v.cnt = 15) ∧
    ((runSim (mkTicker [c2Cmd]) c2Times).filter (fun v => v.idx == 0)).length = 5 := by
  refine ⟨by decide, by decide, by decide⟩

/-- C3 counterexample: the command with `step = 4`, `interval = 10`
satisfies `interval > 0` and `0 ≤ step ≤ interval`, yet the poll from
`prev = 0` to `now = 9` invokes its handler with `stepIndex = 2` and
`stepCount = 2`, violating `stepIndex < stepCount` (4 does not divide
10). -/
theorem step_index_range_refuted :
    ((0 : Int) < 10 ∧ (0 : Int) ≤ 4 ∧ (4 : Int) ≤ 10) ∧
    tickCmd 0 9 ⟨"c", 4, 10, some hNop⟩ = some ⟨"c", 2, 2, none⟩ ∧
    ¬((2 : Int) < 2) := by
  refine ⟨by decide, by decide, by decide⟩

/-- C3 amended: for a command with `interval > 0` and `step` either zero
or a positive divisor of `interval`, every invocation the poll performs
satisfies `0 ≤ stepIndex < stepCount`. -/
theorem step_index_in_range (c : Command) (prev now : Int)
    (hI : 0 < c.Interval)
    (hs : c.Step = 0 ∨ (0 < c.Step ∧ c.Step ∣ c.Interval)) :
    ∀ v : Invocation, tickCmd prev now c = some v → 0 ≤ v.idx ∧ v.idx < v.cnt := by
  intro v hv
  have hbounds : 0 ≤ (stepArgs now (effStep c) c.Interval).1 ∧
      (stepArgs now (effStep c) c.Interval).1 <
        (stepArgs now (effStep c) c.Interval).2 := by
    rcases hs with h0 | ⟨hpos, hdvd⟩
    · have he : effStep c = c.Interval := by simp [effStep, h0]
      rw [he]
      exact stepArgs_bounds now c.Interval c.Interval hI hI dvd_rfl
    · have he : effStep c = c.Step := by simp [effStep, ne_of_gt hpos]
      rw [he]
      exact stepArgs_bounds now c.Step c.Interval hpos hI hdvd
  rcases hH : c.Handler with _ | h
  · simp [tickCmd, hH] at hv
  · simp only [tickCmd, hH] at hv
    by_cases hb : bucket prev (effStep c) ≠ bucket now (effStep c)
    · rw [if_pos hb] at hv
      injection hv with h2
      subst h2
      exact hbounds
    · rw [if_neg hb] at hv
      exact absurd hv (by simp)

/-- witness for the amended C3 at `step = 4`, `interval = 12`, a poll
from `prev = 0` to `now = 9`, which fires with `(stepIndex, stepCount) =
(2, 3)`. -/
theorem step_index_in_range_witness :
    0 ≤ (Invocation.mk "w" 2 3 none).idx ∧
      (Invocation.mk "w" 2 3 none).idx < (Invocation.mk "w" 2 3 none).cnt :=
  step_index_in_range ⟨"w", 4, 12, some hNop⟩ 0 9 (by decide)
    (Or.inr ⟨by decide, by decide⟩) (Invocation.mk "w" 2 3 none) (by decide)

/-- C4 counterexample: a command with `interval = 0 ≤ 0` is not rejected
at construction: building a ticker with it succeeds unconditionally (the
constructor has no error result at all), the command stays registered,
and the first poll at `now = 7` even invokes its handler. -/
theorem construction_rejection_refuted :
    (mkTicker [⟨"bad", 0, 0, some hNop⟩]).Commands.length = 1 ∧
    ((mkTicker [⟨"bad", 0, 0, some hNop⟩]).tickAt 7).2 =
      [⟨"bad", 0, 1, none⟩] := by
  refine ⟨by decide, by decide⟩

/-- C4 amended: construction performs no validation at all: `NewTicker`
plus appending accepts every command list, including commands with
`interval ≤ 0` (and `step = 0`), registers it unchanged with the zero
sentinel as `prev`, and polling proceeds on it. -/
theorem construction_accepts_all (cmds : List Command) :
    (mkTicker cmds).Commands = cmds ∧ (mkTicker cmds).prev = 0 ∧
    (∀ now, ((mkTicker cmds).tickAt now).1.prev = now) :=
  ⟨rfl, rfl, fun _ => rfl⟩

/-- C5: a command with `step = 0` and positive `interval I` always fires
with `stepIndex = 0` and `stepCount = 1`, and the whole per-command poll
behaviour is literally the same as for the command with `step = I`. -/
theorem zero_step_normalization (c : Command) (h0 : c.Step = 0)
    (hI : 0 < c.Interval) :
    (∀ prev now v, tickCmd prev now c = some v → v.idx = 0 ∧ v.cnt = 1) ∧
    (∀ prev now, tickCmd prev now c = tickCmd prev now { c with Step := c.Interval }) := by
  have hne : c.Interval ≠ 0 := ne_of_gt hI
  have he : effStep c = c.Interval := by simp [effStep, h0]
  have he2 : effStep { c with Step := c.Interval } = c.Interval := by
    simp [effStep, hne]
  constructor
  · intro prev now v hv
    rcases hH : c.Handler with _ | h
    · simp [tickCmd, hH] at hv
    · simp only [tickCmd, hH, he] at hv
      by_cases hb : bucket prev c.Interval ≠ bucket now c.Interval
      · rw [if_pos hb] at hv
        injection hv with h2
        subst h2
        constructor
        · show (stepArgs now c.Interval c.Interval).1 = 0
          simp [stepArgs, goDiv, hne]
        · show (stepArgs now c.Interval c.Interval).2 = 1
          simp [stepArgs, goDiv, hne, Int.tdiv_self hne]
      · rw [if_neg hb] at hv
        exact absurd hv (by simp)
  · intro prev now
    simp only [tickCmd, he, he2]

/-- witness for C5 at the command `⟨"z", 0, 5, hNop⟩` and the poll from
`prev = 3` to `now = 7`, which fires with `(0, 1)`. -/
theorem zero_step_normalization_witness :
    (Invocation.mk "z" 0 1 none).idx = 0 ∧
      (Invocation.mk "z" 0 1 none).cnt = 1 :=
  (zero_step_normalization ⟨"z", 0, 5, some hNop⟩ rfl (by decide)).1 3 7
    (Invocation.mk "z" 0 1 none) (by decide)

/-- C6 counterexample: a fresh ticker (sentinel `prev = 0`) holding one
command with a non-nil handler and `effStep = 5` fires nothing on its
first poll when the clock returns `now = 3`, because `3` lies in the same
truncation bucket as the sentinel; so the first poll does not fire every
command for every value of `now`. -/
theorem first_poll_refuted :
    (mkTicker [⟨"a", 0, 5, some hNop⟩]).Commands.length = 1 ∧
    ((mkTicker [⟨"a", 0, 5, some hNop⟩]).tickAt 3).2 = [] := by
  refine ⟨by decide, by decide⟩

/-- C6 amended: the very first poll of a fresh ticker invokes every
registered command's handler exactly once, provided each command has a
non-nil handler and `now` falls outside the sentinel's truncation bucket
under that command's normalized step. -/
theorem first_poll_fires_all (cmds : List Command) (now : Int)
    (h : ∀ c ∈ cmds, c.Handler.isSome ∧
      bucket 0 (effStep c) ≠ bucket now (effStep c)) :
    ((mkTicker cmds).tickAt now).2.length = cmds.length := by
  have hall : ∀ c ∈ cmds, (tickCmd (mkTicker cmds).prev now c).isSome := by
    intro c hc
    rw [show (mkTicker cmds).prev = 0 from rfl, tickCmd_isSome_iff]
    exact ⟨(h c hc).2, (h c hc).1⟩
  show (cmds.filterMap (tickCmd (mkTicker cmds).prev now)).length = cmds.length
  exact length_filterMap_all_isSome _ cmds hall

/-- witness for the amended C6 at a one-command list and `now = 7`. -/
theorem first_poll_fires_all_witness :
    ((mkTicker [c2LitCmd]).tickAt 7).2.length = [c2LitCmd].length :=
  first_poll_fires_all [c2LitCmd] 7 (by decide)

/-- C7: a handler failure is recorded in the log together with the
command's name, and it is invisible to the scheduling itself: the poll
always processes the full command list, always sets `prev` to `now`
(so later boundary crossings are unaffected), and which commands fire
with which `stepIndex`/`stepCount` depends only on the commands' name,
step, interval and handler presence, never on any handler's result. -/
theorem handler_failure_isolated (t : Ticker) (now : Int) :
    ((t.tickAt now).1.prev = now) ∧
    ((t.tickAt now).1.Commands = t.Commands) ∧
    (∀ v ∈ (t.tickAt now).2, ∀ e, v.res = some e →
      (v.name ++ ": " ++ e) ∈ tickLog (t.tickAt now).2) ∧
    (∀ (c cAlt : Command), c.Name = cAlt.Name → c.Step = cAlt.Step →
      c.Interval = cAlt.Interval → c.Handler.isSome = cAlt.Handler.isSome →
      (tickCmd t.prev now c).map dropResult =
        (tickCmd t.prev now cAlt).map dropResult) := by
  refine ⟨rfl, rfl, ?_, ?_⟩
  · intro v hv e he
    unfold tickLog
    rw [List.mem_filterMap]
    exact ⟨v, hv, by rw [he]; rfl⟩
  · rintro ⟨n1, s1, i1, g1⟩ ⟨n2, s2, i2, g2⟩ h1 h2 h3 h4
    simp only at h1 h2 h3
    subst h1
    subst h2
    subst h3
    rw [tickCmd_map_dropResult, tickCmd_map_dropResult]
    simp only [effStep] at h4 ⊢
    rw [show (Command.mk n1 s1 i1 g1).Handler.isSome =
        (Command.mk n1 s1 i1 g2).Handler.isSome from h4]

/-- witness for C7: the failing handler's message appears in the poll's
log with the command name. -/
theorem handler_failure_isolated_witness :
    ("f" ++ ": " ++ "boom") ∈
      tickLog ((mkTicker [⟨"f", 0, 5, some hFail⟩]).tickAt 7).2 :=
  (handler_failure_isolated (mkTicker [⟨"f", 0, 5, some hFail⟩]) 7).2.2.1
    ⟨"f", 0, 1, some "boom"⟩ (by decide) "boom" rfl

/-- C8: two polls in a row with the clock unchanged fire nothing on the
second poll: after the first poll `prev = now`, so every bucket
comparison of the second poll is an equality. -/
theorem no_duplicate_fire (t : Ticker) (now : Int) :
    (((t.tickAt now).1).tickAt now).2 = [] := by
  show t.Commands.filterMap (tickCmd now now) = []
  rw [List.filterMap_eq_nil_iff]
  intro c _
  simp [tickCmd]

/-- C9: a poll reads the clock exactly once (the cursor advances by one
and no stored value changes), and the only change to the ticker is that
`prev` becomes the value just read; the command list is returned
untouched. -/
theorem tick_frame (t : Ticker) (c : ClockState) :
    ((t.Tick c).2.1.pos = c.pos + 1) ∧
    ((t.Tick c).2.1.vals = c.vals) ∧
    ((t.Tick c).1.prev = c.vals c.pos) ∧
    ((t.Tick c).1.Commands = t.Commands) :=
  ⟨rfl, rfl, rfl, rfl⟩

/-- C10 counterexample: the normalized step being zero is not equivalent
to `interval = 0`: the command with `step = 5`, `interval = 0` has
`interval = 0` but a non-zero normalized step. -/
theorem normalized_step_zero_refuted :
    (Command.mk "x" 5 0 none).Interval = 0 ∧
      effStep (Command.mk "x" 5 0 none) ≠ 0 := by
  refine ⟨by decide, by decide⟩

/-- C10 amended: the `stepIndex`/`stepCount` computation is total — with
each Go division checked for a zero divisor it always returns a value,
equal to the unchecked one — because the guarded branch returns `(0, 1)`
whenever the normalized step is zero, which happens exactly when both
`step = 0` and `interval = 0`. -/
theorem tick_division_total :
    (∀ now s i, stepArgsChecked now s i = some (stepArgs now s i)) ∧
    (∀ c : Command, effStep c = 0 ↔ (c.Step = 0 ∧ c.Interval = 0)) ∧
    (∀ now i, stepArgs now 0 i = (0, 1)) := by
  refine ⟨?_, ?_, ?_⟩
  · intro now s i
    by_cases h : s = 0
    · simp [stepArgsChecked, stepArgs, h]
    · simp [stepArgsChecked, stepArgs, checkedDiv, h]
  · intro c
    by_cases h : c.Step = 0 <;> simp [effStep, h]
  · intro now i
    rfl

end Boxer
